import Mathlib

set_option maxRecDepth 100000

/-!
Verification of the PNG chunk-level container parser and serializer
(src/png.rs) against its natural-language specification.

The embedding models the byte stream as a `List Nat` of byte values and a
read position, mirroring Rust's `Cursor<Vec<u8>>`.  A crucial semantic
fact of the source language: `Read::read` on a `Cursor` over an in-memory
buffer is infallible — it copies `min(buf.len(), remaining)` bytes into a
zero-initialized buffer and returns `Ok(n)`, returning `Ok(0)` at end of
stream rather than an error.  Consequently every `res.is_err()` branch in
`png.rs` is unreachable, and short reads silently leave the tail of the
destination buffer at its zero initialization.  The embedding reflects
this exactly: the read helpers never produce the error values guarded by
those branches, and `cursorRead` zero-pads short reads.

The chunk-processing `while` loop of `PngImage::new` does not terminate on
all inputs (at end of stream every iteration reads a zero-filled chunk and
continues), so the loop is embedded with an explicit fuel parameter;
`none` means the computation did not finish within the given fuel.  A
terminating run of the loop advances the cursor on every iteration except
possibly the last (an iteration that consumes no bytes repeats forever),
so fuel `data.length + 1` is enough for every terminating execution.
-/

namespace PngSpec

/-- The error enumeration `PngError` from png.rs. -/
inductive PngError where
  | invalidFileType
  | invalidChunk
  | invalidChunkType (s : String)
  | invalidChunkCrc (s : String)
  | saveOperationFailed
  | invalidChunkSize
  | invalidPngInfo (s : String)
deriving DecidableEq

/-- The `PNGChunk` record from png.rs.  `chunk_type` is a Rust `String`;
since `String::from_utf8` keeps the underlying bytes unchanged and the
code only ever compares the string with 4-byte ASCII literals and writes
its bytes back out, it is embedded as its byte list. -/
structure PNGChunk where
  size : Nat
  chunk_type : List Nat
  data : List Nat
  crc : Nat
deriving DecidableEq

/-- The `PNGInfo` record from png.rs. -/
structure PNGInfo where
  width : Nat
  height : Nat
  bit_depth : Nat
  color_type : Nat
  compression_method : Nat
  filter_method : Nat
  interlace_method : Nat
deriving DecidableEq

/-- `PNG_SIGNATURE` from png.rs. -/
def PNG_SIGNATURE : List Nat := [137, 80, 78, 71, 13, 10, 26, 10]

/-- The byte content of the string literal IHDR. -/
def IHDR_TAG : List Nat := [73, 72, 68, 82]

/-- The byte content of the string literal IEND. -/
def IEND_TAG : List Nat := [73, 69, 78, 68]

/-- Rust `Cursor::read` into a zero-initialized buffer of `n` bytes:
copies `min n (remaining)` bytes, leaves the rest of the buffer at 0,
advances the position by the number of bytes copied, and never fails.
Returns the buffer contents and the new position. -/
def cursorRead (data : List Nat) (pos n : Nat) : List Nat × Nat :=
  ((data.drop pos).take (min n (data.length - pos)) ++
      List.replicate (n - min n (data.length - pos)) 0,
    pos + min n (data.length - pos))

/-- `u32::from_be_bytes` on a 4-byte buffer (each byte reduced mod 256 as
a `u8`).  The read helpers below always pass a buffer of length 4, so the
catch-all case is never exercised. -/
def u32FromBeBytes (bs : List Nat) : Nat :=
  match bs with
  | [a, b, c, d] => ((a % 256) * 256 + b % 256) * 65536 + (c % 256) * 256 + d % 256
  | _ => 0

/-- `u32::to_be_bytes` for a value below 2^32. -/
def u32ToBeBytes (n : Nat) : List Nat :=
  [n / 16777216 % 256, n / 65536 % 256, n / 256 % 256, n % 256]

/-- Whether a byte is a UTF-8 continuation byte (0x80..0xBF). -/
def isUtf8Cont (b : Nat) : Bool := 128 ≤ b && b ≤ 191

/-- UTF-8 validity of a byte list, the check performed by Rust's
`String::from_utf8` (RFC 3629 table: shortest forms only, surrogates and
values above U+10FFFF excluded). -/
def utf8Valid : List Nat → Bool
  | [] => true
  | b :: rest =>
    if b ≤ 127 then utf8Valid rest
    else if 194 ≤ b && b ≤ 223 then
      match rest with
      | c1 :: rest2 => isUtf8Cont c1 && utf8Valid rest2
      | [] => false
    else if b = 224 then
      match rest with
      | c1 :: c2 :: rest2 => (160 ≤ c1 && c1 ≤ 191) && isUtf8Cont c2 && utf8Valid rest2
      | _ => false
    else if (225 ≤ b && b ≤ 236) || b = 238 || b = 239 then
      match rest with
      | c1 :: c2 :: rest2 => isUtf8Cont c1 && isUtf8Cont c2 && utf8Valid rest2
      | _ => false
    else if b = 237 then
      match rest with
      | c1 :: c2 :: rest2 => (128 ≤ c1 && c1 ≤ 159) && isUtf8Cont c2 && utf8Valid rest2
      | _ => false
    else if b = 240 then
      match rest with
      | c1 :: c2 :: c3 :: rest2 =>
          (144 ≤ c1 && c1 ≤ 191) && isUtf8Cont c2 && isUtf8Cont c3 && utf8Valid rest2
      | _ => false
    else if 241 ≤ b && b ≤ 243 then
      match rest with
      | c1 :: c2 :: c3 :: rest2 =>
          isUtf8Cont c1 && isUtf8Cont c2 && isUtf8Cont c3 && utf8Valid rest2
      | _ => false
    else if b = 244 then
      match rest with
      | c1 :: c2 :: c3 :: rest2 =>
          (128 ≤ c1 && c1 ≤ 143) && isUtf8Cont c2 && isUtf8Cont c3 && utf8Valid rest2
      | _ => false
    else false

/-- `PngImage::get_chunk_size`: reads 4 bytes big-endian.  The
`InvalidChunkSize` branch guards `res.is_err()`, which a cursor read never
produces, so the result is always `ok`. -/
def get_chunk_size (data : List Nat) (pos : Nat) : Except PngError Nat × Nat :=
  (Except.ok (u32FromBeBytes (cursorRead data pos 4).1), (cursorRead data pos 4).2)

/-- `PngImage::get_chunk_type`: reads 4 bytes and converts them to a
string via `String::from_utf8`; conversion failure yields
`InvalidChunkType`.  The read itself cannot fail. -/
def get_chunk_type (data : List Nat) (pos : Nat) : Except PngError (List Nat) × Nat :=
  if utf8Valid (cursorRead data pos 4).1 then
    (Except.ok (cursorRead data pos 4).1, (cursorRead data pos 4).2)
  else
    (Except.error (PngError.invalidChunkType "Failed to convert chunk type to string"),
      (cursorRead data pos 4).2)

/-- `PngImage::get_chunk_data`: reads `size` bytes into `vec![0; size]`.
The buffer keeps length `size` even when fewer bytes remain (the tail
stays zero); the `InvalidChunk` branch is unreachable. -/
def get_chunk_data (data : List Nat) (pos : Nat) (size : Nat) :
    Except PngError (List Nat) × Nat :=
  (Except.ok (cursorRead data pos size).1, (cursorRead data pos size).2)

/-- `PngImage::get_chunk_crc`: reads 4 bytes big-endian as the stored CRC.
The `InvalidChunkCrc` branch guards `res.is_err()`, which never happens;
the stored value is not compared against anything. -/
def get_chunk_crc (data : List Nat) (pos : Nat) : Except PngError Nat × Nat :=
  (Except.ok (u32FromBeBytes (cursorRead data pos 4).1), (cursorRead data pos 4).2)

/-- `PngImage::check_file_type`: seeks to offset 0, reads 8 bytes and
compares with `PNG_SIGNATURE`.  A source shorter than 8 bytes yields a
zero-padded buffer, which never equals the signature. -/
def check_file_type (data : List Nat) : Except PngError Unit × Nat :=
  if (cursorRead data 0 8).1 = PNG_SIGNATURE then (Except.ok (), (cursorRead data 0 8).2)
  else (Except.error PngError.invalidFileType, (cursorRead data 0 8).2)

/-- `PngImage::get_png_info`: rejects a chunk whose type is not IHDR,
then reads width and height (4 bytes big-endian each) from the chunk
payload.  The reads cannot fail; the remaining five fields are returned
as the literal 0 exactly as in the source. -/
def get_png_info (header_chunk : PNGChunk) : Except PngError PNGInfo :=
  if header_chunk.chunk_type ≠ IHDR_TAG then
    Except.error (PngError.invalidPngInfo "Header chunk must be of type IHDR")
  else
    Except.ok
      { width := u32FromBeBytes (cursorRead header_chunk.data 0 4).1
        height := u32FromBeBytes (cursorRead header_chunk.data (cursorRead header_chunk.data 0 4).2 4).1
        bit_depth := 0
        color_type := 0
        compression_method := 0
        filter_method := 0
        interlace_method := 0 }

/-- The chunk-processing `while` loop of `PngImage::new`, with explicit
fuel (`none` = the loop did not finish within `fuel` iterations).  Each
iteration reads size, type, payload and CRC, appends the chunk, and stops
only when the chunk type equals IEND. -/
def parseChunksLoop (data : List Nat) : Nat → Nat → List PNGChunk →
    Option (Except PngError (List PNGChunk × Nat))
  | 0, _, _ => none
  | Nat.succ fuel, pos, acc =>
    match get_chunk_size data pos with
    | (Except.error e, _) => some (Except.error e)
    | (Except.ok chunk_size, pos1) =>
      match get_chunk_type data pos1 with
      | (Except.error e, _) => some (Except.error e)
      | (Except.ok chunk_type, pos2) =>
        match get_chunk_data data pos2 chunk_size with
        | (Except.error e, _) => some (Except.error e)
        | (Except.ok chunk_data, pos3) =>
          match get_chunk_crc data pos3 with
          | (Except.error e, _) => some (Except.error e)
          | (Except.ok chunk_crc, pos4) =>
            if chunk_type = IEND_TAG then
              some (Except.ok (acc ++ [PNGChunk.mk chunk_size chunk_type chunk_data chunk_crc], pos4))
            else
              parseChunksLoop data fuel pos4
                (acc ++ [PNGChunk.mk chunk_size chunk_type chunk_data chunk_crc])

/-- `PngImage::new` on an in-memory byte source: signature check, chunk
loop, then header extraction from `chunks[0]`.  The `[]` arm models the
out-of-bounds index `chunks[0]`, which the loop makes unreachable (it
always appends at least one chunk before returning); like fuel
exhaustion it is mapped to `none` (no value is returned). -/
def pngNew (fuel : Nat) (data : List Nat) : Option (Except PngError (List PNGChunk)) :=
  match check_file_type data with
  | (Except.error _, _) => some (Except.error PngError.invalidFileType)
  | (Except.ok _, pos0) =>
    match parseChunksLoop data fuel pos0 [] with
    | none => none
    | some (Except.error e) => some (Except.error e)
    | some (Except.ok (chunks, _)) =>
      match chunks with
      | [] => none
      | c0 :: _ =>
        match get_png_info c0 with
        | Except.error e => some (Except.error e)
        | Except.ok _ => some (Except.ok chunks)

/-- `PngImage::new` with canonical fuel `data.length + 1`, which covers
every terminating execution of the loop (a terminating run advances the
position on all iterations but possibly the last). -/
def parsePng (data : List Nat) : Option (Except PngError (List PNGChunk)) :=
  pngNew (data.length + 1) data

/-- The byte sequence built by `PngImage::save_image` before it is
written to the file: the signature, then for each chunk in order the
big-endian size, the type-tag bytes, the payload and the big-endian
stored CRC (verbatim, no recomputation). -/
def save_image_bytes (chunks : List PNGChunk) : List Nat :=
  chunks.foldl
    (fun bytes c => bytes ++ u32ToBeBytes c.size ++ c.chunk_type ++ c.data ++ u32ToBeBytes c.crc)
    PNG_SIGNATURE

/-- On-disk encoding of one chunk record (length, tag, payload, CRC). -/
def encodeChunk (c : PNGChunk) : List Nat :=
  u32ToBeBytes c.size ++ c.chunk_type ++ c.data ++ u32ToBeBytes c.crc

/-- On-disk encoding of a chunk sequence. -/
def encodeChunks (cs : List PNGChunk) : List Nat :=
  (cs.map encodeChunk).flatten

/-- Structural well-formedness of a chunk as written on disk: a 4-byte
UTF-8-decodable type tag, payload length equal to the declared length,
all bytes in range, and 32-bit size and CRC fields. -/
def wfChunk (c : PNGChunk) : Bool :=
  (c.chunk_type.length == 4) && utf8Valid c.chunk_type &&
    c.chunk_type.all (fun b => decide (b < 256)) &&
    (c.data.length == c.size) && c.data.all (fun b => decide (b < 256)) &&
    decide (c.size < 4294967296) && decide (c.crc < 4294967296)

/-- A well-formed chunk run: every chunk well-formed, the last (and only
the last) chunk carries the terminator tag IEND. -/
def seqOk : List PNGChunk → Bool
  | [] => false
  | [c] => wfChunk c && (c.chunk_type == IEND_TAG)
  | c :: rest => wfChunk c && (c.chunk_type != IEND_TAG) && seqOk rest

/-- A valid chunk sequence for a whole container: a well-formed run whose
first chunk carries the header tag IHDR. -/
def validChunks (cs : List PNGChunk) : Bool :=
  match cs with
  | [] => false
  | c0 :: _ => (c0.chunk_type == IHDR_TAG) && seqOk cs

/-- A valid container byte sequence together with its chunk decomposition:
the signature followed by well-formed chunks, the first the IHDR header,
ending exactly at the terminator chunk's CRC. -/
def ValidContainer (B : List Nat) (cs : List PNGChunk) : Prop :=
  validChunks cs = true ∧ B = PNG_SIGNATURE ++ encodeChunks cs

instance instDecEqExcept {ε α : Type} [DecidableEq ε] [DecidableEq α] : DecidableEq (Except ε α)
  | Except.ok x, Except.ok y =>
    if h : x = y then Decidable.isTrue (congrArg Except.ok h)
    else Decidable.isFalse (fun hc => h (Except.ok.inj hc))
  | Except.ok _, Except.error _ => Decidable.isFalse (fun hc => Except.noConfusion hc)
  | Except.error _, Except.ok _ => Decidable.isFalse (fun hc => Except.noConfusion hc)
  | Except.error x, Except.error y =>
    if h : x = y then Decidable.isTrue (congrArg Except.error h)
    else Decidable.isFalse (fun hc => h (Except.error.inj hc))

/-- Modelled from the spec: the CRC Engine (§4.1) is described but absent
from the source (the parser never verifies checksums); one bit step of
reflected CRC-32 with polynomial 0xEDB88320. -/
def crc32BitStep (c : Nat) : Nat :=
  if c % 2 = 1 then Nat.xor (c / 2) 0xEDB88320 else c / 2

/-- Modelled from the spec: eight bit steps for one input byte. -/
def crc32Bits : Nat → Nat → Nat
  | 0, c => c
  | n + 1, c => crc32Bits n (crc32BitStep c)

/-- Modelled from the spec: the CRC Engine's `compute` (reflected CRC-32,
polynomial 0xEDB88320, initial value 0xFFFFFFFF, final XOR 0xFFFFFFFF). -/
def crc32_compute (bytes : List Nat) : Nat :=
  Nat.xor (bytes.foldl (fun c b => crc32Bits 8 (Nat.xor c (b % 256))) 0xFFFFFFFF) 0xFFFFFFFF

/-- Example IHDR payload: width 100, height 50, bit depth 8, color type 2,
compression 0, filter 0, interlace 0. -/
def exIhdrPayload : List Nat := [0, 0, 0, 100, 0, 0, 0, 50, 8, 2, 0, 0, 0]

/-- CRC-32 of IHDR tag ++ `exIhdrPayload` (value of `crc32_compute`). -/
def exIhdrCrc : Nat := 626518505

/-- CRC-32 of the bare IEND tag, the constant 0xAE426082 that also
appears in the repository's own test fixture. -/
def exIendCrc : Nat := 2923585666

/-- Example header chunk. -/
def exIhdrChunk : PNGChunk := PNGChunk.mk 13 IHDR_TAG exIhdrPayload exIhdrCrc

/-- Example terminator chunk. -/
def exIendChunk : PNGChunk := PNGChunk.mk 0 IEND_TAG [] exIendCrc

/-- A complete valid example container: signature, IHDR chunk, IEND chunk. -/
def exContainer : List Nat := PNG_SIGNATURE ++ encodeChunks [exIhdrChunk, exIendChunk]

/-- `exContainer` truncated two bytes into the terminator chunk's CRC
field (strictly before the end of a valid container). -/
def exTruncated : List Nat := exContainer.take (exContainer.length - 2)

/-- `exIhdrPayload` with a single bit flipped (bit depth byte 8 becomes 9)
while every stored CRC stays as in `exContainer`. -/
def exFlippedPayload : List Nat := [0, 0, 0, 100, 0, 0, 0, 50, 9, 2, 0, 0, 0]

/-- `exContainer` with the single payload bit flip of `exFlippedPayload`
and the stored CRCs unchanged. -/
def exFlippedContainer : List Nat :=
  PNG_SIGNATURE ++ encodeChunks [PNGChunk.mk 13 IHDR_TAG exFlippedPayload exIhdrCrc, exIendChunk]

/-- A header chunk whose payload is empty rather than the mandated 13
bytes. -/
def exEmptyIhdrChunk : PNGChunk := PNGChunk.mk 0 IHDR_TAG [] 0

theorem u32ToBeBytes_length (n : Nat) : (u32ToBeBytes n).length = 4 := rfl

theorem u32_roundtrip (n : Nat) (h : n < 4294967296) :
    u32FromBeBytes (u32ToBeBytes n) = n := by
  simp [u32FromBeBytes, u32ToBeBytes]
  omega

theorem cursorRead_prefix (data pre rest : List Nat) (pos : Nat)
    (h : data.drop pos = pre ++ rest) :
    cursorRead data pos pre.length = (pre, pos + pre.length) := by
  have h2 := congrArg List.length h
  simp only [List.length_drop, List.length_append] at h2
  have hmin : min pre.length (data.length - pos) = pre.length := by omega
  unfold cursorRead
  rw [hmin, h, List.take_left]
  simp

theorem drop_advance (data pre rest : List Nat) (pos : Nat)
    (h : data.drop pos = pre ++ rest) :
    data.drop (pos + pre.length) = rest := by
  rw [← List.drop_drop, h, List.drop_left]

theorem cursorRead_fst_length (data : List Nat) (pos n : Nat) :
    ((cursorRead data pos n).1).length = n := by
  simp [cursorRead, List.length_take, List.length_drop]

theorem save_image_foldl (cs : List PNGChunk) (init : List Nat) :
    cs.foldl
      (fun bytes c => bytes ++ u32ToBeBytes c.size ++ c.chunk_type ++ c.data ++ u32ToBeBytes c.crc)
      init = init ++ encodeChunks cs := by
  induction cs generalizing init with
  | nil => simp [encodeChunks]
  | cons c rest ih =>
    rw [List.foldl_cons, ih]
    simp [encodeChunks, encodeChunk, List.append_assoc]

theorem save_image_bytes_eq (cs : List PNGChunk) :
    save_image_bytes cs = PNG_SIGNATURE ++ encodeChunks cs :=
  save_image_foldl cs PNG_SIGNATURE

theorem length_le_encodeChunks (cs : List PNGChunk) :
    cs.length ≤ (encodeChunks cs).length := by
  induction cs with
  | nil => simp [encodeChunks]
  | cons c rest ih =>
    simp only [encodeChunks, List.map_cons, List.flatten_cons, List.length_append,
      List.length_cons] at ih ⊢
    have : 1 ≤ (encodeChunk c).length := by
      simp only [encodeChunk, List.length_append, u32ToBeBytes_length]
      omega
    omega

theorem wfChunk_spec (c : PNGChunk) (h : wfChunk c = true) :
    c.chunk_type.length = 4 ∧ utf8Valid c.chunk_type = true ∧ c.data.length = c.size ∧
      c.size < 4294967296 ∧ c.crc < 4294967296 := by
  simp only [wfChunk, Bool.and_eq_true, beq_iff_eq, decide_eq_true_eq] at h
  exact ⟨h.1.1.1.1.1.1, h.1.1.1.1.1.2, h.1.1.1.2, h.1.2, h.2⟩

theorem parseLoop_encodes (cs : List PNGChunk) :
    ∀ (data suffix : List Nat) (pos fuel : Nat) (acc : List PNGChunk),
      seqOk cs = true →
      data.drop pos = encodeChunks cs ++ suffix →
      cs.length ≤ fuel →
      parseChunksLoop data fuel pos acc =
        some (Except.ok (acc ++ cs, pos + (encodeChunks cs).length)) := by
  induction cs with
  | nil =>
    intro data suffix pos fuel acc hseq _ _
    simp [seqOk] at hseq
  | cons c rest ih =>
    intro data suffix pos fuel acc hseq hdata hfuel
    obtain ⟨csize, cty, cdat, ccrc⟩ := c
    cases fuel with
    | zero => simp at hfuel
    | succ f =>
      have hwf : wfChunk (PNGChunk.mk csize cty cdat ccrc) = true := by
        cases rest with
        | nil => simp only [seqOk, Bool.and_eq_true] at hseq; exact hseq.1
        | cons d r => simp only [seqOk, Bool.and_eq_true] at hseq; exact hseq.1.1
      obtain ⟨hty_len, hty_utf, hdl, hsz, hcrc⟩ := wfChunk_spec _ hwf
      simp only at hty_len hty_utf hdl hsz hcrc
      have hd0 : data.drop pos =
          u32ToBeBytes csize ++ (cty ++ (cdat ++ (u32ToBeBytes ccrc ++ (encodeChunks rest ++ suffix)))) := by
        simpa [encodeChunks, encodeChunk, List.append_assoc] using hdata
      have r1 := cursorRead_prefix data (u32ToBeBytes csize) _ pos hd0
      rw [u32ToBeBytes_length] at r1
      have hd1 := drop_advance data (u32ToBeBytes csize) _ pos hd0
      rw [u32ToBeBytes_length] at hd1
      have r2 := cursorRead_prefix data cty _ (pos + 4) hd1
      rw [hty_len] at r2
      have hd2 := drop_advance data cty _ (pos + 4) hd1
      rw [hty_len] at hd2
      have r3 := cursorRead_prefix data cdat _ (pos + 4 + 4) hd2
      rw [hdl] at r3
      have hd3 := drop_advance data cdat _ (pos + 4 + 4) hd2
      rw [hdl] at hd3
      have r4 := cursorRead_prefix data (u32ToBeBytes ccrc) _ (pos + 4 + 4 + csize) hd3
      rw [u32ToBeBytes_length] at r4
      have hd4 := drop_advance data (u32ToBeBytes ccrc) _ (pos + 4 + 4 + csize) hd3
      rw [u32ToBeBytes_length] at hd4
      have e1 : get_chunk_size data pos = (Except.ok csize, pos + 4) := by
        simp [get_chunk_size, r1, u32_roundtrip _ hsz]
      have e2 : get_chunk_type data (pos + 4) = (Except.ok cty, pos + 4 + 4) := by
        simp [get_chunk_type, r2, hty_utf]
      have e3 : get_chunk_data data (pos + 4 + 4) csize = (Except.ok cdat, pos + 4 + 4 + csize) := by
        simp [get_chunk_data, r3]
      have e4 : get_chunk_crc data (pos + 4 + 4 + csize) = (Except.ok ccrc, pos + 4 + 4 + csize + 4) := by
        simp [get_chunk_crc, r4, u32_roundtrip _ hcrc]
      have hlen1 : (encodeChunks [PNGChunk.mk csize cty cdat ccrc]).length = 4 + 4 + csize + 4 := by
        simp [encodeChunks, encodeChunk, List.length_append, u32ToBeBytes_length]
        omega
      cases rest with
      | nil =>
        have hIend : cty = IEND_TAG := by
          simp only [seqOk, Bool.and_eq_true, beq_iff_eq] at hseq
          exact hseq.2
        simp only [parseChunksLoop, e1, e2, e3, e4]
        rw [if_pos hIend]
        have : pos + 4 + 4 + csize + 4 = pos + (encodeChunks [PNGChunk.mk csize cty cdat ccrc]).length := by
          rw [hlen1]; omega
        rw [this]
      | cons d r =>
        have hne : cty ≠ IEND_TAG := by
          simp only [seqOk, Bool.and_eq_true, bne_iff_ne, ne_eq] at hseq
          exact hseq.1.2
        have hseqr : seqOk (d :: r) = true := by
          simp only [seqOk, Bool.and_eq_true] at hseq
          exact hseq.2
        simp only [parseChunksLoop, e1, e2, e3, e4]
        rw [if_neg hne]
        rw [ih data suffix (pos + 4 + 4 + csize + 4) f
          (acc ++ [PNGChunk.mk csize cty cdat ccrc]) hseqr hd4 (by simp at hfuel ⊢; omega)]
        have harith : pos + 4 + 4 + csize + 4 + (encodeChunks (d :: r)).length =
            pos + (encodeChunks (PNGChunk.mk csize cty cdat ccrc :: d :: r)).length := by
          simp [encodeChunks, encodeChunk, List.length_append, u32ToBeBytes_length, hdl]
          omega
        rw [List.append_assoc]
        rw [harith]
        simp

theorem check_file_type_of_prefix (rest : List Nat) :
    check_file_type (PNG_SIGNATURE ++ rest) = (Except.ok (), 8) := by
  have r := cursorRead_prefix (PNG_SIGNATURE ++ rest) PNG_SIGNATURE rest 0 rfl
  have r8 : cursorRead (PNG_SIGNATURE ++ rest) 0 8 = (PNG_SIGNATURE, 8) := by
    simpa [PNG_SIGNATURE] using r
  simp [check_file_type, r8]

theorem drop8_of_prefix (rest : List Nat) :
    (PNG_SIGNATURE ++ rest).drop 8 = rest :=
  List.drop_left PNG_SIGNATURE rest

theorem seqOk_of_validChunks (cs : List PNGChunk) (h : validChunks cs = true) :
    seqOk cs = true := by
  cases cs with
  | nil => simp [validChunks] at h
  | cons c0 tl => simp only [validChunks, Bool.and_eq_true] at h; exact h.2

theorem pngNew_valid (B S : List Nat) (cs : List PNGChunk) (h : ValidContainer B cs)
    (fuel : Nat) (hfuel : cs.length ≤ fuel) :
    pngNew fuel (B ++ S) = some (Except.ok cs) := by
  obtain ⟨hv, hB⟩ := h
  subst hB
  rw [List.append_assoc]
  have hc := check_file_type_of_prefix (encodeChunks cs ++ S)
  have hd := drop8_of_prefix (encodeChunks cs ++ S)
  have hloop := parseLoop_encodes cs (PNG_SIGNATURE ++ (encodeChunks cs ++ S)) S 8 fuel []
    (seqOk_of_validChunks cs hv) hd hfuel
  obtain ⟨c0, tl, rfl⟩ : ∃ c0 tl, cs = c0 :: tl := by
    cases cs with
    | nil => simp [validChunks] at hv
    | cons c0 tl => exact ⟨c0, tl, rfl⟩
  have hhdr : c0.chunk_type = IHDR_TAG := by
    simp only [validChunks, Bool.and_eq_true, beq_iff_eq] at hv
    exact hv.1
  simp only [pngNew, hc, hloop, List.nil_append]
  simp [get_png_info, hhdr]

theorem getLast?_cons_of_ne_nil {α : Type} (a : α) (l : List α) (h : l ≠ []) :
    (a :: l).getLast? = l.getLast? := by
  have hs : l.getLast?.isSome := List.getLast?_isSome.mpr h
  obtain ⟨x, hx⟩ := Option.isSome_iff_exists.mp hs
  have : (a :: l) = [a] ++ l := rfl
  rw [this, List.getLast?_append, hx]
  rfl

theorem parseLoop_inv (data : List Nat) :
    ∀ (fuel pos : Nat) (acc chunks : List PNGChunk) (pos2 : Nat),
      parseChunksLoop data fuel pos acc = some (Except.ok (chunks, pos2)) →
      ∃ cs, chunks = acc ++ cs ∧ cs ≠ [] ∧
        cs.getLast?.map PNGChunk.chunk_type = some IEND_TAG ∧
        (∀ c ∈ cs.dropLast, c.chunk_type ≠ IEND_TAG) ∧
        (∀ c ∈ cs, c.data.length = c.size) := by
  intro fuel
  induction fuel with
  | zero =>
    intro pos acc chunks pos2 h
    simp [parseChunksLoop] at h
  | succ f ih =>
    intro pos acc chunks pos2 h
    simp only [parseChunksLoop, get_chunk_size, get_chunk_type, get_chunk_data,
      get_chunk_crc] at h
    split at h
    · simp at h
    · rename_i ctype posx heq
      split at h
      · rename_i hIend
        simp only [Option.some.injEq, Except.ok.injEq, Prod.mk.injEq] at h
        refine ⟨[_], h.1.symm, by simp, ?_, by simp, ?_⟩
        · simp [hIend]
        · intro c hc
          simp at hc
          subst hc
          exact cursorRead_fst_length data _ _
      · rename_i hIend
        obtain ⟨cs1, hchunks, hne, hlast, hdrop, hlen⟩ := ih _ _ _ _ h
        rw [List.append_assoc] at hchunks
        refine ⟨_ :: cs1, by simpa using hchunks, by simp, ?_, ?_, ?_⟩
        · rw [getLast?_cons_of_ne_nil _ _ hne]
          exact hlast
        · intro c hc
          rw [List.dropLast_cons_of_ne_nil hne] at hc
          rcases List.mem_cons.mp hc with hc | hc
          · subst hc
            exact hIend
          · exact hdrop c hc
        · intro c hc
          rcases List.mem_cons.mp hc with hc | hc
          · subst hc
            exact cursorRead_fst_length data _ _
          · exact hlen c hc

theorem parseLoop_error_shape (data : List Nat) :
    ∀ (fuel pos : Nat) (acc : List PNGChunk) (e : PngError),
      parseChunksLoop data fuel pos acc = some (Except.error e) →
      ∃ s, e = PngError.invalidChunkType s := by
  intro fuel
  induction fuel with
  | zero =>
    intro pos acc e h
    simp [parseChunksLoop] at h
  | succ f ih =>
    intro pos acc e h
    simp only [parseChunksLoop, get_chunk_size, get_chunk_type, get_chunk_data,
      get_chunk_crc] at h
    split at h
    · rename_i e2 snd heq
      simp only [Option.some.injEq, Except.error.injEq] at h
      have : e2 = PngError.invalidChunkType "Failed to convert chunk type to string" := by
        by_cases hv : utf8Valid (cursorRead data (cursorRead data pos 4).2 4).1 = true
        · rw [if_pos hv] at heq
          exact absurd heq (by simp)
        · rw [if_neg hv] at heq
          simp only [Prod.mk.injEq, Except.error.injEq] at heq
          exact heq.1.symm
      exact ⟨_, by rw [← h, this]⟩
    · rename_i ctype posx heq
      split at h
      · simp at h
      · exact ih _ _ _ h

theorem sig_read_ne (data : List Nat)
    (h : data.take 8 ≠ PNG_SIGNATURE ∨ data.length < 8) :
    (cursorRead data 0 8).1 ≠ PNG_SIGNATURE := by
  rcases Nat.lt_or_ge data.length 8 with hlt | hge
  · intro hEq
    have hmin : min 8 data.length = data.length := by omega
    have hbuf : (cursorRead data 0 8).1 = data ++ List.replicate (8 - data.length) 0 := by
      simp [cursorRead, hmin, List.take_length]
    rw [hbuf] at hEq
    have h7 := congrArg (fun l => l[7]?) hEq
    simp only at h7
    rw [List.getElem?_append_right (by omega)] at h7
    rw [List.getElem?_replicate] at h7
    rw [if_pos (by omega)] at h7
    simp [PNG_SIGNATURE] at h7
  · have hmin : min 8 data.length = 8 := by omega
    have hbuf : (cursorRead data 0 8).1 = data.take 8 := by
      simp [cursorRead, hmin]
    rw [hbuf]
    rcases h with h | h
    · exact h
    · omega

theorem parseLoop_signature_only :
    ∀ (fuel : Nat) (acc : List PNGChunk), parseChunksLoop PNG_SIGNATURE fuel 8 acc = none := by
  intro fuel
  induction fuel with
  | zero => intro acc; rfl
  | succ f ih =>
    intro acc
    have e1 : get_chunk_size PNG_SIGNATURE 8 = (Except.ok 0, 8) := by decide
    have e2 : get_chunk_type PNG_SIGNATURE 8 = (Except.ok [0, 0, 0, 0], 8) := by decide
    have e3 : get_chunk_data PNG_SIGNATURE 8 0 = (Except.ok [], 8) := by decide
    have e4 : get_chunk_crc PNG_SIGNATURE 8 = (Except.ok 0, 8) := by decide
    simp only [parseChunksLoop, e1, e2, e3, e4]
    rw [if_neg (by decide : ¬([0, 0, 0, 0] : List Nat) = IEND_TAG)]
    exact ih _

theorem get_png_info_error_shape (c : PNGChunk) (e : PngError)
    (h : get_png_info c = Except.error e) : ∃ s, e = PngError.invalidPngInfo s := by
  by_cases hc : c.chunk_type ≠ IHDR_TAG
  · rw [get_png_info, if_pos hc] at h
    exact ⟨_, (Except.error.inj h).symm⟩
  · rw [get_png_info, if_neg hc] at h
    exact absurd h (by simp)

theorem pngNew_ok_inv (fuel : Nat) (data : List Nat) (chunks : List PNGChunk)
    (h : pngNew fuel data = some (Except.ok chunks)) :
    ∃ pos0 pos2, parseChunksLoop data fuel pos0 [] = some (Except.ok (chunks, pos2)) ∧
      ∃ c0 tl, chunks = c0 :: tl ∧ c0.chunk_type = IHDR_TAG := by
  simp only [pngNew] at h
  split at h
  · exact absurd h (by simp)
  · rename_i u pos0 heq0
    split at h
    · exact absurd h (by simp)
    · exact absurd h (by simp)
    · rename_i chunksx posx heq1
      split at h
      · exact absurd h (by simp)
      · rename_i c0 tl
        split at h
        · exact absurd h (by simp)
        · rename_i info heqinfo
          simp only [Option.some.injEq, Except.ok.injEq] at h
          subst h
          have hhdr : c0.chunk_type = IHDR_TAG := by
            by_cases hc : c0.chunk_type ≠ IHDR_TAG
            · rw [get_png_info, if_pos hc] at heqinfo
              exact absurd heqinfo (by simp)
            · exact not_not.mp hc
          exact ⟨pos0, posx, heq1, c0, tl, rfl, hhdr⟩

theorem validContainer_chunk_bound (B : List Nat) (cs : List PNGChunk)
    (h : ValidContainer B cs) : cs.length ≤ B.length := by
  obtain ⟨hv, hB⟩ := h
  have hle := length_le_encodeChunks cs
  subst hB
  simp only [List.length_append]
  omega

/-- Claim C1: for every valid container byte sequence `B` — the signature
followed by well-formed chunks ending exactly at the terminator chunk's
CRC — parsing succeeds with the container's chunk sequence, and
serializing that parse result in verbatim mode (the byte stream
`save_image` emits, with every stored CRC reused as-is) reproduces `B`
byte for byte. -/
theorem png_roundtrip_verbatim (B : List Nat) (cs : List PNGChunk)
    (h : ValidContainer B cs) :
    parsePng B = some (Except.ok cs) ∧ save_image_bytes cs = B := by
  constructor
  · have hfuel : cs.length ≤ B.length + 1 := by
      have := validContainer_chunk_bound B cs h
      omega
    have hp := pngNew_valid B [] cs h (B.length + 1) hfuel
    simpa [parsePng] using hp
  · obtain ⟨hv, hB⟩ := h
    rw [save_image_bytes_eq, hB]

/-- Witness for C1 at the concrete container `exContainer`. -/
theorem png_roundtrip_verbatim_witness :
    ValidContainer exContainer [exIhdrChunk, exIendChunk] ∧
      (parsePng exContainer = some (Except.ok [exIhdrChunk, exIendChunk]) ∧
        save_image_bytes [exIhdrChunk, exIendChunk] = exContainer) :=
  ⟨⟨by decide, rfl⟩, png_roundtrip_verbatim exContainer [exIhdrChunk, exIendChunk] ⟨by decide, rfl⟩⟩

/-- Claim C2 (counterexample): in `exFlippedContainer` a single payload
bit of the header chunk is flipped relative to `exContainer` while the
stored CRC is unchanged, so the stored CRC disagrees with CRC-32 over
type tag ++ payload; parsing nevertheless succeeds — no checksum-mismatch
failure occurs. -/
theorem crc_mismatch_parses_successfully :
    crc32_compute (IHDR_TAG ++ exFlippedPayload) ≠ exIhdrCrc ∧
      parsePng exFlippedContainer =
        some (Except.ok [PNGChunk.mk 13 IHDR_TAG exFlippedPayload exIhdrCrc, exIendChunk]) :=
  ⟨by decide, by decide⟩

/-- Claim C2 (amended): after reading a chunk's 4-byte CRC trailer the
parser stores it without any verification; no input ever makes parsing
fail with the checksum-mismatch error `InvalidChunkCrc`. -/
theorem no_checksum_mismatch_error (fuel : Nat) (data : List Nat)
    (res : Except PngError (List PNGChunk)) (h : pngNew fuel data = some res)
    (s : String) : res ≠ Except.error (PngError.invalidChunkCrc s) := by
  intro hres
  subst hres
  simp only [pngNew] at h
  split at h
  · exact absurd h (by simp)
  · split at h
    · exact absurd h (by simp)
    · rename_i e heq
      simp only [Option.some.injEq, Except.error.injEq] at h
      obtain ⟨s2, hs2⟩ := parseLoop_error_shape data _ _ _ _ heq
      rw [h] at hs2
      exact absurd hs2 (by simp)
    · rename_i chunksx posx heq1
      split at h
      · exact absurd h (by simp)
      · rename_i c0 tl
        split at h
        · rename_i e heqinfo
          simp only [Option.some.injEq, Except.error.injEq] at h
          obtain ⟨s2, hs2⟩ := get_png_info_error_shape c0 e heqinfo
          rw [h] at hs2
          exact absurd hs2 (by simp)
        · exact absurd h (by simp)

/-- Witness for C2's amended theorem at a concrete input. -/
theorem no_checksum_mismatch_error_witness :
    pngNew 1 [] = some (Except.error PngError.invalidFileType) ∧
      (Except.error PngError.invalidFileType : Except PngError (List PNGChunk)) ≠
        Except.error (PngError.invalidChunkCrc "mismatch") :=
  ⟨by decide, no_checksum_mismatch_error 1 [] _ (by decide) "mismatch"⟩

/-- Claim C3 (code bug): truncating the valid container `exContainer` two
bytes before its end — strictly inside the terminator chunk's CRC field —
does not fail with a truncation error: parsing succeeds silently, with the
missing CRC bytes read as zero padding. -/
theorem truncated_container_silent_success :
    parsePng exTruncated =
      some (Except.ok [exIhdrChunk, PNGChunk.mk 0 IEND_TAG [] 2923560960]) := by
  decide

/-- Claim C4 (code bug): the chunk loop does not terminate on every input.
On the bare 8-byte signature, every iteration reads a zero-filled chunk
whose type is not the terminator tag and continues, so no amount of fuel
ever produces a result — the Rust loop runs forever. -/
theorem parse_diverges_without_terminator :
    ∀ fuel : Nat, pngNew fuel PNG_SIGNATURE = none := by
  intro fuel
  have hc : check_file_type PNG_SIGNATURE = (Except.ok (), 8) := by decide
  simp only [pngNew, hc, parseLoop_signature_only]

/-- Claim C5 (counterexample): on the claim's exact 13-byte header payload
(width 100, height 50, bit depth 8, color type 2) the header interpreter
does not return bit depth 8 and color type 2. -/
theorem header_fields_not_decoded :
    (get_png_info exIhdrChunk).map (fun i => (i.bit_depth, i.color_type)) ≠
      Except.ok (8, 2) := by
  decide

/-- Claim C5 (amended): on that payload the header interpreter returns
width 100 and height 50, decoded big-endian, and the literal 0 for the
five remaining fields — bit depth and color type are not decoded. -/
theorem header_decodes_width_height_only :
    get_png_info exIhdrChunk = Except.ok (PNGInfo.mk 100 50 0 0 0 0 0) := by
  decide

/-- Claim C6: every input whose first 8 bytes differ from the magic
constant, or which has fewer than 8 bytes, fails with the
invalid-file-type error regardless of all subsequent content. -/
theorem invalid_signature_rejected (data : List Nat) (fuel : Nat)
    (h : data.take 8 ≠ PNG_SIGNATURE ∨ data.length < 8) :
    pngNew fuel data = some (Except.error PngError.invalidFileType) := by
  have hne := sig_read_ne data h
  simp only [pngNew, check_file_type, if_neg hne]

/-- Witness for C6 at a concrete 3-byte input. -/
theorem invalid_signature_rejected_witness :
    (([1, 2, 3] : List Nat).take 8 ≠ PNG_SIGNATURE ∨ ([1, 2, 3] : List Nat).length < 8) ∧
      pngNew 0 [1, 2, 3] = some (Except.error PngError.invalidFileType) :=
  ⟨Or.inr (by decide), invalid_signature_rejected [1, 2, 3] 0 (Or.inr (by decide))⟩

/-- Claim C7 (counterexample): a header chunk whose payload has length 0,
not the mandated 13 bytes, is accepted by the header interpreter (with
all-zero fields, width 0 included) instead of failing. -/
theorem header_accepts_short_payload :
    get_png_info exEmptyIhdrChunk = Except.ok (PNGInfo.mk 0 0 0 0 0 0 0) := by
  decide

/-- Claim C7 (amended): the header interpreter fails exactly when the
chunk's type tag is not IHDR; it performs no payload-length check and no
field-range validation. -/
theorem header_checks_only_tag (c : PNGChunk) :
    (∃ info, get_png_info c = Except.ok info) ↔ c.chunk_type = IHDR_TAG := by
  constructor
  · rintro ⟨info, hinfo⟩
    by_cases hc : c.chunk_type ≠ IHDR_TAG
    · rw [get_png_info, if_pos hc] at hinfo
      exact absurd hinfo (by simp)
    · exact not_not.mp hc
  · intro hc
    rw [get_png_info, if_neg (by simp [hc])]
    exact ⟨_, rfl⟩

/-- Claim C8: every successfully parsed container has a non-empty chunk
sequence whose first chunk carries the IHDR tag, whose last chunk carries
the IEND tag, and in which no chunk before the last carries the IEND
tag. -/
theorem parsed_container_ordering (fuel : Nat) (data : List Nat)
    (chunks : List PNGChunk) (h : pngNew fuel data = some (Except.ok chunks)) :
    chunks ≠ [] ∧ chunks.head?.map PNGChunk.chunk_type = some IHDR_TAG ∧
      chunks.getLast?.map PNGChunk.chunk_type = some IEND_TAG ∧
      chunks.dropLast.all (fun c => c.chunk_type != IEND_TAG) = true := by
  obtain ⟨pos0, pos2, hloop, c0, tl, hch, hhdr⟩ := pngNew_ok_inv fuel data chunks h
  obtain ⟨cs, hchunks, hne, hlast, hdrop, hlen⟩ := parseLoop_inv data fuel pos0 [] chunks pos2 hloop
  have hcseq : cs = chunks := by simpa using hchunks.symm
  subst hcseq
  refine ⟨hne, ?_, hlast, ?_⟩
  · rw [hch]
    simp [hhdr]
  · rw [List.all_eq_true]
    intro c hc
    simpa [bne_iff_ne] using hdrop c hc

/-- Witness for C8 at the concrete container `exContainer`. -/
theorem parsed_container_ordering_witness :
    pngNew 3 exContainer = some (Except.ok [exIhdrChunk, exIendChunk]) ∧
      ([exIhdrChunk, exIendChunk] ≠ ([] : List PNGChunk) ∧
        [exIhdrChunk, exIendChunk].head?.map PNGChunk.chunk_type = some IHDR_TAG ∧
        [exIhdrChunk, exIendChunk].getLast?.map PNGChunk.chunk_type = some IEND_TAG ∧
        [exIhdrChunk, exIendChunk].dropLast.all (fun c => c.chunk_type != IEND_TAG) = true) :=
  ⟨by decide, parsed_container_ordering 3 exContainer [exIhdrChunk, exIendChunk] (by decide)⟩

/-- Claim C9: in every successfully parsed container, each chunk's payload
byte vector has length equal to its stored declared-length field, so the
serializer's emitted length prefix always matches the payload bytes it
writes for parser-produced chunks. -/
theorem parsed_chunk_length_matches_size (fuel : Nat) (data : List Nat)
    (chunks : List PNGChunk) (h : pngNew fuel data = some (Except.ok chunks)) :
    chunks.all (fun c => c.data.length == c.size) = true := by
  obtain ⟨pos0, pos2, hloop, c0, tl, hch, hhdr⟩ := pngNew_ok_inv fuel data chunks h
  obtain ⟨cs, hchunks, hne, hlast, hdrop, hlen⟩ := parseLoop_inv data fuel pos0 [] chunks pos2 hloop
  have hcseq : cs = chunks := by simpa using hchunks.symm
  subst hcseq
  rw [List.all_eq_true]
  intro c hc
  simpa [beq_iff_eq] using hlen c hc

/-- Witness for C9 at the concrete container `exContainer`. -/
theorem parsed_chunk_length_matches_size_witness :
    pngNew 3 exContainer = some (Except.ok [exIhdrChunk, exIendChunk]) ∧
      ([exIhdrChunk, exIendChunk].all (fun c => c.data.length == c.size) = true) :=
  ⟨by decide, parsed_chunk_length_matches_size 3 exContainer [exIhdrChunk, exIendChunk] (by decide)⟩

/-- Claim C10: appending arbitrary extra bytes after a valid container
does not change the parse: both the container alone and the container
followed by any suffix parse successfully to the same chunk sequence —
the bytes after the terminator chunk's CRC are never read. -/
theorem trailing_bytes_ignored (B S : List Nat) (cs : List PNGChunk)
    (h : ValidContainer B cs) :
    parsePng B = some (Except.ok cs) ∧ parsePng (B ++ S) = some (Except.ok cs) := by
  have hbound := validContainer_chunk_bound B cs h
  constructor
  · have hp := pngNew_valid B [] cs h (B.length + 1) (by omega)
    simpa [parsePng] using hp
  · have hp := pngNew_valid B S cs h ((B ++ S).length + 1)
      (by simp [List.length_append]; omega)
    simpa [parsePng] using hp

/-- Witness for C10 at `exContainer` with a 3-byte junk suffix. -/
theorem trailing_bytes_ignored_witness :
    ValidContainer exContainer [exIhdrChunk, exIendChunk] ∧
      (parsePng exContainer = some (Except.ok [exIhdrChunk, exIendChunk]) ∧
        parsePng (exContainer ++ [7, 8, 9]) = some (Except.ok [exIhdrChunk, exIendChunk])) :=
  ⟨⟨by decide, rfl⟩,
    trailing_bytes_ignored exContainer [7, 8, 9] [exIhdrChunk, exIendChunk] ⟨by decide, rfl⟩⟩

end PngSpec
